import Mathlib

/-!
Verification of the HP-16C emulator's calculation engine against its
specification.  The repository ships the UI entry points (`main.pyw`
variants); the engine modules (`stack.py`, `arithmetic.py`,
`base_conversion.py`, `error.py`) referenced by those entry points are not
part of the provided sources, so the engine components
(WordSizeContext, RegisterStack, OperationEvaluator, BaseFormatter,
ErrorClassifier) are modelled from the specification text, while
`load_config` and the button-binding logic are embedded directly from
`main.pyw`.
-/

namespace HP16C

/-- Modelled from the spec: the signed-representation mode enum of
WordSizeContext (§3); the implementing module is not under the provided
sources. -/
inductive Mode where
  | UNSIGNED
  | ONES_COMPLEMENT
  | TWOS_COMPLEMENT
  | SIGN_MAGNITUDE
deriving DecidableEq, Repr

/-- Modelled from the spec: the numeric display bases (§1, §4.4); the
implementing module (`base_conversion.py`) is not under the provided
sources. -/
inductive Base where
  | BIN
  | OCT
  | DEC
  | HEX
deriving DecidableEq, Repr

/-- The radix of each base. -/
def Base.radix : Base → Nat
  | .BIN => 2
  | .OCT => 8
  | .DEC => 10
  | .HEX => 16

/-- Modelled from the spec: the closed error enumeration of
ErrorClassifier (§4.5); the implementing module (`error.py`) is not under
the provided sources. -/
inductive ErrorKind where
  | DivideByZero
  | InvalidDigitForBase
  | InvalidWordSize
  | InvalidRegisterIndex
  | Overflow
deriving DecidableEq, Repr

/-- Modelled from the spec: WordSizeContext holds the active word length
(4-64 bits) and signed-representation mode (§3); the implementing module
is not under the provided sources. -/
structure WordSizeContext where
  word_size : Nat
  mode : Mode
deriving DecidableEq, Repr

/-- Modelled from the spec: `mask(raw) = raw mod 2^word_size`, always
non-negative, safe for raw integers far outside range (§4.1); the
implementing module is not under the provided sources.  `Int.emod` is the
mathematical remainder, non-negative for a positive modulus. -/
def mask (ctx : WordSizeContext) (raw : Int) : Int :=
  raw % ((2 : Int) ^ ctx.word_size)

/-- Modelled from the spec: `interpret_signed` reinterprets a masked
fixed-width value per `mode` (§4.1): UNSIGNED unchanged; TWOS_COMPLEMENT
subtracts `2^word_size` when the top bit is set; ONES_COMPLEMENT negates
by bit-complement (all-ones is negative zero); SIGN_MAGNITUDE uses the
top bit purely as a sign over the low `word_size - 1` magnitude bits. -/
def interpret_signed (ctx : WordSizeContext) (v : Int) : Int :=
  match ctx.mode with
  | .UNSIGNED => v
  | .TWOS_COMPLEMENT =>
      if 2 ^ (ctx.word_size - 1) ≤ v then v - 2 ^ ctx.word_size else v
  | .ONES_COMPLEMENT =>
      if 2 ^ (ctx.word_size - 1) ≤ v then v - (2 ^ ctx.word_size - 1) else v
  | .SIGN_MAGNITUDE =>
      if 2 ^ (ctx.word_size - 1) ≤ v then -(v - 2 ^ (ctx.word_size - 1)) else v

/-- Modelled from the spec: `max_signed` bound used for overflow
detection (§4.1). -/
def max_signed (ctx : WordSizeContext) : Int :=
  match ctx.mode with
  | .UNSIGNED => 2 ^ ctx.word_size - 1
  | _ => 2 ^ (ctx.word_size - 1) - 1

/-- Modelled from the spec: `min_signed` bound used for overflow
detection (§4.1). -/
def min_signed (ctx : WordSizeContext) : Int :=
  match ctx.mode with
  | .UNSIGNED => 0
  | .TWOS_COMPLEMENT => -(2 ^ (ctx.word_size - 1))
  | _ => -(2 ^ (ctx.word_size - 1) - 1)

/-- Modelled from the spec: the four-level RPN register stack X, Y, Z, T
(§3); the implementing module (`stack.py`) is not under the provided
sources. -/
structure RegisterStack where
  x : Int
  y : Int
  z : Int
  t : Int
deriving DecidableEq, Repr

/-- Modelled from the spec: `push(value)` performs the shift-up of §3 and
§4.2: T is discarded, Z moves to T, Y to Z, X to Y, and the new value
lands in X. -/
def RegisterStack.push (s : RegisterStack) (v : Int) : RegisterStack :=
  ⟨v, s.x, s.y, s.z⟩

/-- Modelled from the spec: `pop()` returns X and performs the shift-down
with T replicated (§4.2): Y to X, Z to Y, T to Z, T duplicated. -/
def RegisterStack.pop (s : RegisterStack) : Int × RegisterStack :=
  (s.x, ⟨s.y, s.z, s.t, s.t⟩)

/-- The number of memory registers: indices 0-F, 16 slots (§3). -/
def NUM_REGISTERS : Nat := 16

/-- Modelled from the spec: `store(reg_index, value)` writes the memory
bank; an index outside the valid range signals InvalidRegisterIndex
(§4.2); the implementing module is not under the provided sources. -/
def store (mem : List Int) (i : Nat) (v : Int) : Except ErrorKind (List Int) :=
  if i < NUM_REGISTERS then .ok (mem.set i v) else .error .InvalidRegisterIndex

/-- Modelled from the spec: `recall(reg_index)` reads the memory bank; an
index outside the valid range signals InvalidRegisterIndex (§4.2).
(Named `recall_reg` because `recall` is reserved in this development.) -/
def recall_reg (mem : List Int) (i : Nat) : Except ErrorKind Int :=
  if i < NUM_REGISTERS then .ok (mem.getD i 0) else .error .InvalidRegisterIndex

/-- Modelled from the spec: the whole mutable engine state (§5): the
four-level stack, the memory bank, the word-size/representation context
and the overflow flag (of the carry/overflow pair, only the overflow
flag is modelled here; no claim concerns the carry flag). -/
structure Engine where
  stack : RegisterStack
  memory : List Int
  ctx : WordSizeContext
  overflow : Bool
deriving DecidableEq, Repr

/-- Modelled from the spec: the operation vocabulary of
OperationEvaluator (§3, §4.3) restricted to the variants the claims
exercise: binary arithmetic, entering a committed value, memory
store/recall, word-size and mode changes, and the pure stack
rearrangements. -/
inductive Op where
  | ENTER (v : Int)
  | ADD
  | SUB
  | MUL
  | DIV
  | STO (i : Nat)
  | RCL (i : Nat)
  | SET_WORD_SIZE (n : Nat)
  | SET_MODE (m : Mode)
  | SWAP_XY
  | ROLL_DOWN
  | CLEAR_X
deriving DecidableEq, Repr

/-- Modelled from the spec: the overflow condition of §4.3 - for
TWOS_COMPLEMENT and SIGN_MAGNITUDE, a true mathematical result outside
`[min_signed, max_signed]` sets the overflow flag. -/
def signed_overflow (ctx : WordSizeContext) (tv : Int) : Bool :=
  decide ((ctx.mode = Mode.TWOS_COMPLEMENT ∨ ctx.mode = Mode.SIGN_MAGNITUDE) ∧
    (tv < min_signed ctx ∨ max_signed ctx < tv))

/-- Modelled from the spec: a binary arithmetic operation (§4.3) pops Y
and X, computes the signed result per mode, masks it, pushes the masked
result (the stack after two pops and one push is `(r, z, t, t)`), and
records the overflow flag. -/
def binArith (e : Engine) (f : Int → Int → Int) : Engine :=
  let tv := f (interpret_signed e.ctx e.stack.y) (interpret_signed e.ctx e.stack.x)
  { e with
    stack := ⟨mask e.ctx tv, e.stack.z, e.stack.t, e.stack.t⟩
    overflow := signed_overflow e.ctx tv }

/-- Modelled from the spec: changing `word_size` or `mode` re-masks every
stack and memory register immediately (§3, §4.1). -/
def remask (e : Engine) : Engine :=
  { e with
    stack := ⟨mask e.ctx e.stack.x, mask e.ctx e.stack.y,
              mask e.ctx e.stack.z, mask e.ctx e.stack.t⟩
    memory := e.memory.map (mask e.ctx) }

/-- Modelled from the spec: `evaluate(op, stack, context)` returns either
the new engine state or a classified error (§4.3); the implementing
module (`arithmetic.py`) is not under the provided sources.  Division by
zero is rejected before any mutation; word-size changes outside [4,64]
are rejected with InvalidWordSize; signed division truncates toward
zero. -/
def evaluate (op : Op) (e : Engine) : Except ErrorKind Engine :=
  match op with
  | .ENTER v => .ok { e with stack := e.stack.push (mask e.ctx v) }
  | .ADD => .ok (binArith e (fun a b => a + b))
  | .SUB => .ok (binArith e (fun a b => a - b))
  | .MUL => .ok (binArith e (fun a b => a * b))
  | .DIV =>
      if e.stack.x = 0 then .error .DivideByZero
      else .ok (binArith e (fun a b => Int.tdiv a b))
  | .STO i =>
      match store e.memory i e.stack.x with
      | .ok mem' => .ok { e with memory := mem' }
      | .error k => .error k
  | .RCL i =>
      match recall_reg e.memory i with
      | .ok v => .ok { e with stack := e.stack.push v }
      | .error k => .error k
  | .SET_WORD_SIZE n =>
      if 4 ≤ n ∧ n ≤ 64 then
        .ok (remask { e with ctx := { e.ctx with word_size := n } })
      else .error .InvalidWordSize
  | .SET_MODE m => .ok (remask { e with ctx := { e.ctx with mode := m } })
  | .SWAP_XY => .ok { e with stack := ⟨e.stack.y, e.stack.x, e.stack.z, e.stack.t⟩ }
  | .ROLL_DOWN => .ok { e with stack := ⟨e.stack.y, e.stack.z, e.stack.t, e.stack.x⟩ }
  | .CLEAR_X => .ok { e with stack := { e.stack with x := 0 } }

/-- Modelled from the spec: the engine-level transition (§7) - a
recoverable error rejects the operation, leaves the whole state intact
and surfaces the ErrorKind for the presentation layer. -/
def step (e : Engine) (op : Op) : Engine × Option ErrorKind :=
  match evaluate op e with
  | .ok e' => (e', none)
  | .error k => (e, some k)

/-- Run a sequence of operations from an initial engine state, keeping
the prior state whenever an operation is rejected. -/
def run (e : Engine) (ops : List Op) : Engine :=
  ops.foldl (fun acc op => (step acc op).1) e

/-- A value lies in the representable range `[0, 2^word_size)` of the
context. -/
def inRange (ctx : WordSizeContext) (v : Int) : Prop :=
  0 ≤ v ∧ v < 2 ^ ctx.word_size

instance (ctx : WordSizeContext) (v : Int) : Decidable (inRange ctx v) := by
  unfold inRange
  infer_instance

/-- The engine invariant of §3: all four stack slots and all memory
slots hold a value inside `[0, 2^word_size)` of the current context. -/
def EngineInv (e : Engine) : Prop :=
  inRange e.ctx e.stack.x ∧ inRange e.ctx e.stack.y ∧
  inRange e.ctx e.stack.z ∧ inRange e.ctx e.stack.t ∧
  ∀ v ∈ e.memory, inRange e.ctx v

instance (e : Engine) : Decidable (EngineInv e) := by
  unfold EngineInv
  infer_instance

/-- The display character of a digit value: `0`-`9` then uppercase
`A`-`F` (§4.4: hexadecimal uses uppercase A-F). -/
def digitChar (d : Nat) : Char :=
  if d < 10 then Char.ofNat (48 + d) else Char.ofNat (55 + d)

/-- The digit value of a display character, if it is one of `0`-`9`,
`A`-`F`. -/
def charToDigit (c : Char) : Option Nat :=
  if 48 ≤ c.toNat ∧ c.toNat ≤ 57 then some (c.toNat - 48)
  else if 65 ≤ c.toNat ∧ c.toNat ≤ 70 then some (c.toNat - 55)
  else none

/-- Modelled from the spec: the fixed-width padding convention of §4.4
and §8 - pad to the minimum digit count needed to show `word_size` bits
in the base, i.e. the digit count of the all-ones word `2^word_size - 1`. -/
def pad_length (b : Base) (ws : Nat) : Nat :=
  (Nat.digits b.radix (2 ^ ws - 1)).length

/-- Modelled from the spec: `format(value, context, base)` renders the
masked fixed-width value in the requested base, zero-padded on the left
to the fixed width of `pad_length` (§4.4); the implementing module
(`base_conversion.py`) is not under the provided sources.  The result is
a most-significant-digit-first character list. -/
def format (v : Int) (ctx : WordSizeContext) (b : Base) : List Char :=
  let n := (mask ctx v).toNat
  let ds := Nat.digits b.radix n
  let padded := ds ++ List.replicate (pad_length b ctx.word_size - ds.length) 0
  (padded.map digitChar).reverse

/-- Read a most-significant-first character list back into digit values
(most-significant-first as well); `none` when a character is not a
digit. -/
def readDigits : List Char → Option (List Nat)
  | [] => some []
  | c :: cs =>
      match charToDigit c, readDigits cs with
      | some d, some ds => some (d :: ds)
      | _, _ => none

/-- Modelled from the spec: `commit(pending_string, base)` converts the
fully typed literal into a raw integer and masks it via
WordSizeContext; an over-range literal is masked silently (§4.4). -/
def commit (s : List Char) (b : Base) (ctx : WordSizeContext) : Except ErrorKind Int :=
  match readDigits s with
  | some ds =>
      if ds.all (fun d => d < b.radix) then
        .ok (mask ctx (Nat.ofDigits b.radix ds.reverse : Nat))
      else .error .InvalidDigitForBase
  | none => .error .InvalidDigitForBase

/-- Whether a character is a digit valid in the given base. -/
def is_valid_digit (c : Char) (b : Base) : Bool :=
  match charToDigit c with
  | some d => decide (d < b.radix)
  | none => false

/-- Modelled from the spec: `parse_digit(current_pending_string,
digit_char, base)` appends a digit valid in the active base to the
pending entry and rejects an invalid one with InvalidDigitForBase
(§4.4). -/
def parse_digit (pending : List Char) (c : Char) (b : Base) :
    Except ErrorKind (List Char) :=
  if is_valid_digit c b then .ok (pending ++ [c])
  else .error .InvalidDigitForBase

/-- Modelled from the spec: the digit-entry transition (§4.4, §7) - a
rejected digit leaves the existing pending entry unmodified and surfaces
the error. -/
def entry_step (pending : List Char) (c : Char) (b : Base) :
    List Char × Option ErrorKind :=
  match parse_digit pending c b with
  | .ok p => (p, none)
  | .error k => (pending, some k)

/-- A configuration value of the `load_config` dictionary: an integer, a
string or a boolean. -/
inductive ConfigVal where
  | int (n : Int)
  | str (s : String)
  | bool (b : Bool)
deriving DecidableEq, Repr

/-- Embedded from `main.pyw` (`load_config`): the construction-time
configuration dictionary.  The initial literal sets `display_width` to
400 and `display_height` to 100; the subsequent assignments override
them to 575 and 80 and add `display_x` and `display_y`, preserving the
insertion order of a Python dict. -/
def load_config : List (String × ConfigVal) :=
  [("display_width", .int 575),
   ("display_height", .int 80),
   ("margin", .int 20),
   ("bg_color", .str "#1e1818"),
   ("display_font_family", .str "Calculator"),
   ("display_font_size", .int 28),
   ("show_stack_display", .bool false),
   ("display_x", .int 125),
   ("display_y", .int 20)]

/-- A button handler: either the initial no-op `dummy_cmd` or a named
entry of the command map. -/
inductive Cmd where
  | noop
  | handler (name : String)
deriving DecidableEq, Repr

/-- A button's configuration entry, as read from BUTTONS_CONFIG:
`cfg.get("command_name", None)` - absent is `none`; Python treats the
empty string as falsy. -/
structure ButtonCfg where
  command_name : Option String
deriving DecidableEq, Repr

/-- Embedded from `main.pyw` (button creation and rebinding loops): every
button is first given `dummy_cmd`; afterwards, only when `c_name` is
truthy and present in `command_map` is the button's command replaced by
`command_map[c_name]`. -/
def bind_command (command_map : String → Option Cmd) (cfg : ButtonCfg) : Cmd :=
  match cfg.command_name with
  | none => Cmd.noop
  | some nm =>
      if nm = "" then Cmd.noop
      else
        match command_map nm with
        | some c => c
        | none => Cmd.noop

/-- Masking always lands in the representable range of the context. -/
theorem mask_inRange (ctx : WordSizeContext) (v : Int) : inRange ctx (mask ctx v) :=
  ⟨Int.emod_nonneg v (pow_ne_zero _ two_ne_zero),
   Int.emod_lt_of_pos v (by positivity)⟩

/-- Zero is always representable. -/
theorem zero_inRange (ctx : WordSizeContext) : inRange ctx 0 :=
  ⟨le_refl 0, by positivity⟩

/-- A defaulted list read returns a member of the list or the default. -/
theorem getD_mem_or_eq (mem : List Int) (i : Nat) (d : Int) :
    mem.getD i d ∈ mem ∨ mem.getD i d = d := by
  rw [List.getD_eq_getElem?_getD]
  cases h : mem[i]? with
  | none => right; rfl
  | some v =>
      left
      obtain ⟨hl, rfl⟩ := List.getElem?_eq_some.mp h
      exact List.getElem_mem hl

/-- Every base's radix is more than 1. -/
theorem one_lt_radix (b : Base) : 1 < b.radix := by
  cases b <;> decide

/-- Every base's radix is at most 16. -/
theorem radix_le_sixteen (b : Base) : b.radix ≤ 16 := by
  cases b <;> decide

/-- `charToDigit` inverts `digitChar` on digit values below 16. -/
theorem charToDigit_digitChar : ∀ d : Nat, d < 16 → charToDigit (digitChar d) = some d := by
  decide

/-- `readDigits` inverts mapping `digitChar` over digit values below 16. -/
theorem readDigits_map (l : List Nat) (h : ∀ d ∈ l, d < 16) :
    readDigits (l.map digitChar) = some l := by
  induction l with
  | nil => rfl
  | cons d ds ih =>
      have hd : d < 16 := h d (List.mem_cons_self d ds)
      have hds := ih (fun x hx => h x (List.mem_cons_of_mem d hx))
      simp [readDigits, charToDigit_digitChar d hd, hds]

/-- A run of zero digits contributes nothing to the value. -/
theorem ofDigits_replicate_zero (b k : Nat) :
    Nat.ofDigits b (List.replicate k 0) = 0 := by
  induction k with
  | zero => rfl
  | succ k ih => rw [List.replicate_succ, Nat.ofDigits_cons, ih]; simp

/-- C1 (counterexample): pushing 10, 20, 30, 40, 50 onto a zeroed stack
leaves T = 20, the second value pushed; T does not hold the value pushed
two operations before the most recent push (30, or 40 under the
alternative off-by-one reading). -/
theorem c1_counterexample :
    (((((RegisterStack.mk 0 0 0 0).push 10).push 20).push 30).push 40).push 50 =
      RegisterStack.mk 50 40 30 20 ∧
    ((((((RegisterStack.mk 0 0 0 0).push 10).push 20).push 30).push 40).push 50).t ≠ 30 ∧
    ((((((RegisterStack.mk 0 0 0 0).push 10).push 20).push 30).push 40).push 50).t ≠ 40 := by
  decide

/-- C1 (amended): for every initial stack, pushing v1..v5 in sequence
(each push discarding T and shifting Z to T, Y to Z, X to Y) leaves
X = v5 (the most recent), Y = v4, Z = v3 and T = v2: T holds the second
value pushed, i.e. the value pushed three operations before the most
recent one, the oldest value not yet discarded. -/
theorem c1_push_five (s : RegisterStack) (v1 v2 v3 v4 v5 : Int) :
    ((((s.push v1).push v2).push v3).push v4).push v5 =
      RegisterStack.mk v5 v4 v3 v2 :=
  rfl

/-- C2: with X = 0, evaluating DIV is rejected with DivideByZero and the
engine state - stack (X, Y, Z and T), memory, context and flags - is
left unchanged. -/
theorem c2_div_by_zero (e : Engine) (h : e.stack.x = 0) :
    step e Op.DIV = (e, some ErrorKind.DivideByZero) := by
  simp [step, evaluate, h]

/-- C2 (witness): a concrete divide-by-zero: X = 0, Y = 7. -/
theorem c2_div_by_zero_witness :
    step (Engine.mk (RegisterStack.mk 0 7 1 2) (List.replicate 16 0)
        (WordSizeContext.mk 16 Mode.TWOS_COMPLEMENT) false) Op.DIV =
      (Engine.mk (RegisterStack.mk 0 7 1 2) (List.replicate 16 0)
        (WordSizeContext.mk 16 Mode.TWOS_COMPLEMENT) false,
       some ErrorKind.DivideByZero) :=
  c2_div_by_zero _ rfl

/-- C6: a digit character not valid in the active base is rejected by
`parse_digit` with InvalidDigitForBase, and the entry transition leaves
the existing pending entry unmodified. -/
theorem c6_invalid_digit (pending : List Char) (c : Char) (b : Base)
    (h : is_valid_digit c b = false) :
    parse_digit pending c b = .error ErrorKind.InvalidDigitForBase ∧
    entry_step pending c b = (pending, some ErrorKind.InvalidDigitForBase) := by
  simp [parse_digit, entry_step, h]

/-- C6 (witness): in octal, the digit `8` is rejected and the pending
entry `"7"` is untouched. -/
theorem c6_invalid_digit_witness :
    parse_digit ['7'] '8' Base.OCT = .error ErrorKind.InvalidDigitForBase ∧
    entry_step ['7'] '8' Base.OCT = (['7'], some ErrorKind.InvalidDigitForBase) :=
  c6_invalid_digit ['7'] '8' Base.OCT (by decide)

/-- C8 (counterexample): the construction-time configuration built by
`load_config` contains no `word_size`, `mode` or `base` entry at all. -/
theorem c8_counterexample :
    List.lookup "word_size" load_config = none ∧
    List.lookup "mode" load_config = none ∧
    List.lookup "base" load_config = none :=
  ⟨rfl, rfl, rfl⟩

/-- C8 (amended): the configuration supplied once at construction holds
only display/UI settings (display geometry, margin, colors, font,
stack-display toggle); word_size, mode and base are not supplied through
it. -/
theorem c8_config_display_only :
    load_config.map Prod.fst =
      ["display_width", "display_height", "margin", "bg_color",
       "display_font_family", "display_font_size", "show_stack_display",
       "display_x", "display_y"] ∧
    List.lookup "word_size" load_config = none ∧
    List.lookup "mode" load_config = none ∧
    List.lookup "base" load_config = none :=
  ⟨rfl, rfl, rfl, rfl⟩

/-- C9: for every word size in [4,64] and every raw integer (including
negatives and values far outside range), `mask` is idempotent and its
result is non-negative. -/
theorem c9_mask_idempotent (ctx : WordSizeContext) (v : Int)
    (h1 : 4 ≤ ctx.word_size) (h2 : ctx.word_size ≤ 64) :
    mask ctx (mask ctx v) = mask ctx v ∧ 0 ≤ mask ctx v := by
  unfold mask
  refine ⟨Int.emod_emod_of_dvd v dvd_rfl, Int.emod_nonneg v ?_⟩
  exact pow_ne_zero _ two_ne_zero

/-- C9 (witness): a concrete instance at word size 16 and the negative
raw value -5. -/
theorem c9_mask_idempotent_witness :
    mask (WordSizeContext.mk 16 Mode.UNSIGNED)
        (mask (WordSizeContext.mk 16 Mode.UNSIGNED) (-5)) =
      mask (WordSizeContext.mk 16 Mode.UNSIGNED) (-5) ∧
    0 ≤ mask (WordSizeContext.mk 16 Mode.UNSIGNED) (-5) :=
  c9_mask_idempotent (WordSizeContext.mk 16 Mode.UNSIGNED) (-5)
    (by decide) (by decide)

/-- C10: every button keeps some bound handler: a button whose
command_name is None (or falsy) keeps the initial no-op, a named button
whose name is missing from the command map keeps the no-op, and in
general the bound command is either the no-op or exactly the command-map
entry for the button's name - never an unbound lookup. -/
theorem c10_buttons_bound :
    (∀ m : String → Option Cmd, bind_command m ⟨none⟩ = Cmd.noop) ∧
    (∀ (m : String → Option Cmd) (cfg : ButtonCfg) (nm : String),
      cfg.command_name = some nm → m nm = none → bind_command m cfg = Cmd.noop) ∧
    (∀ (m : String → Option Cmd) (cfg : ButtonCfg),
      bind_command m cfg = Cmd.noop ∨
      ∃ nm c, cfg.command_name = some nm ∧ m nm = some c ∧
        bind_command m cfg = c) := by
  refine ⟨fun m => rfl, ?_, ?_⟩
  · intro m cfg nm h hm
    unfold bind_command
    rw [h]
    by_cases hnm : nm = ""
    · simp [hnm]
    · simp [hnm, hm]
  · intro m cfg
    unfold bind_command
    cases hcn : cfg.command_name with
    | none => exact Or.inl rfl
    | some nm =>
        by_cases hnm : nm = ""
        · simp [hnm]
        · cases hm : m nm with
          | none => simp [hnm, hm]
          | some c =>
              right
              exact ⟨nm, c, rfl, hm, by simp [hnm, hm]⟩

/-- C7: the 16-slot memory bank is mutated only by store/recall: for an
in-range index, store succeeds and a recall of the stored index returns
the stored value; for an out-of-range index both store and recall are
rejected with InvalidRegisterIndex and the engine-level step leaves the
whole state unchanged. -/
theorem c7_memory :
    (∀ (mem : List Int) (i : Nat) (v : Int),
      mem.length = NUM_REGISTERS → i < NUM_REGISTERS →
      store mem i v = .ok (mem.set i v) ∧
      recall_reg (mem.set i v) i = .ok v) ∧
    (∀ (mem : List Int) (i : Nat) (v : Int), NUM_REGISTERS ≤ i →
      store mem i v = .error ErrorKind.InvalidRegisterIndex ∧
      recall_reg mem i = .error ErrorKind.InvalidRegisterIndex) ∧
    (∀ (e : Engine) (i : Nat), NUM_REGISTERS ≤ i →
      step e (Op.STO i) = (e, some ErrorKind.InvalidRegisterIndex) ∧
      step e (Op.RCL i) = (e, some ErrorKind.InvalidRegisterIndex)) := by
  refine ⟨?_, ?_, ?_⟩
  · intro mem i v hlen hi
    refine ⟨by simp [store, hi], ?_⟩
    unfold recall_reg
    rw [if_pos hi]
    congr 1
    rw [List.getD_eq_getElem?_getD, List.getElem?_set_self]
    · simp
    · rw [hlen]
      exact hi
  · intro mem i v hi
    have hni : ¬ i < NUM_REGISTERS := Nat.not_lt.mpr hi
    exact ⟨by simp [store, hni], by simp [recall_reg, hni]⟩
  · intro e i hi
    have hni : ¬ i < NUM_REGISTERS := Nat.not_lt.mpr hi
    exact ⟨by simp [step, evaluate, store, hni], by simp [step, evaluate, recall_reg, hni]⟩

/-- C7 (witness): storing 42 in register 3 of a zeroed 16-slot bank and
recalling it, plus the rejection at index 16. -/
theorem c7_memory_witness :
    (store (List.replicate 16 0) 3 42 = .ok ((List.replicate 16 0).set 3 42) ∧
     recall_reg ((List.replicate 16 0).set 3 42) 3 = .ok 42) ∧
    (store (List.replicate 16 0) 16 42 = .error ErrorKind.InvalidRegisterIndex ∧
     recall_reg (List.replicate 16 0) 16 = .error ErrorKind.InvalidRegisterIndex) :=
  ⟨c7_memory.1 (List.replicate 16 0) 3 42 rfl (by decide),
   c7_memory.2.1 (List.replicate 16 0) 16 42 (by decide)⟩

/-- C3: in TWOS_COMPLEMENT and SIGN_MAGNITUDE modes, an ADD whose true
mathematical (signed) result lies outside [min_signed, max_signed]
succeeds with the masked (wrapped) result pushed and the overflow flag
set; concretely, at word size 4 in two's complement, pushing 7 then 1
and adding yields X = 8 with the overflow flag set. -/
theorem c3_overflow_flag :
    (∀ e : Engine,
      (e.ctx.mode = Mode.TWOS_COMPLEMENT ∨ e.ctx.mode = Mode.SIGN_MAGNITUDE) →
      (interpret_signed e.ctx e.stack.y + interpret_signed e.ctx e.stack.x <
        min_signed e.ctx ∨
       max_signed e.ctx <
        interpret_signed e.ctx e.stack.y + interpret_signed e.ctx e.stack.x) →
      evaluate Op.ADD e = .ok
        { e with
          stack := RegisterStack.mk
            (mask e.ctx
              (interpret_signed e.ctx e.stack.y + interpret_signed e.ctx e.stack.x))
            e.stack.z e.stack.t e.stack.t,
          overflow := true }) ∧
    ((run (Engine.mk (RegisterStack.mk 0 0 0 0) (List.replicate 16 0)
        (WordSizeContext.mk 4 Mode.TWOS_COMPLEMENT) false)
        [Op.ENTER 7, Op.ENTER 1, Op.ADD]).stack.x = 8 ∧
     (run (Engine.mk (RegisterStack.mk 0 0 0 0) (List.replicate 16 0)
        (WordSizeContext.mk 4 Mode.TWOS_COMPLEMENT) false)
        [Op.ENTER 7, Op.ENTER 1, Op.ADD]).overflow = true) := by
  constructor
  · intro e hm hov
    have hso : signed_overflow e.ctx
        (interpret_signed e.ctx e.stack.y + interpret_signed e.ctx e.stack.x) = true :=
      decide_eq_true ⟨hm, hov⟩
    simp [evaluate, binArith, hso]
  · exact ⟨by decide, by decide⟩

/-- C3 (witness): the concrete overflowing ADD at word size 4, two's
complement, with the stack holding X = 1, Y = 7. -/
theorem c3_overflow_flag_witness :
    evaluate Op.ADD (Engine.mk (RegisterStack.mk 1 7 0 0) (List.replicate 16 0)
        (WordSizeContext.mk 4 Mode.TWOS_COMPLEMENT) false) =
      .ok (Engine.mk (RegisterStack.mk 8 0 0 0) (List.replicate 16 0)
        (WordSizeContext.mk 4 Mode.TWOS_COMPLEMENT) true) := by
  have h := c3_overflow_flag.1
    (Engine.mk (RegisterStack.mk 1 7 0 0) (List.replicate 16 0)
      (WordSizeContext.mk 4 Mode.TWOS_COMPLEMENT) false)
    (Or.inl rfl) (by decide)
  exact h

/-- C4: every engine operation preserves the invariant that all four
stack slots and all memory slots lie in [0, 2^word_size) of the current
context; and a word-size change re-masks X and the whole memory bank
immediately, with no further operation. -/
theorem c4_remask_invariant :
    (∀ (e : Engine) (op : Op), EngineInv e → EngineInv (step e op).1) ∧
    (∀ (e : Engine) (n : Nat), 4 ≤ n → n ≤ 64 →
      (step e (Op.SET_WORD_SIZE n)).1.stack.x = e.stack.x % 2 ^ n ∧
      (step e (Op.SET_WORD_SIZE n)).1.memory = e.memory.map (fun v => v % 2 ^ n)) := by
  constructor
  · intro e op hinv
    obtain ⟨hx, hy, hz, ht, hmem⟩ := hinv
    cases op with
    | ENTER v =>
        exact ⟨mask_inRange _ _, hx, hy, hz, hmem⟩
    | ADD => exact ⟨mask_inRange _ _, hz, ht, ht, hmem⟩
    | SUB => exact ⟨mask_inRange _ _, hz, ht, ht, hmem⟩
    | MUL => exact ⟨mask_inRange _ _, hz, ht, ht, hmem⟩
    | DIV =>
        by_cases h0 : e.stack.x = 0
        · simp only [step, evaluate, h0, if_pos]
          exact ⟨hx, hy, hz, ht, hmem⟩
        · simp only [step, evaluate, h0, if_neg, if_false]
          exact ⟨mask_inRange _ _, hz, ht, ht, hmem⟩
    | STO i =>
        by_cases hi : i < NUM_REGISTERS
        · simp only [step, evaluate, store, hi, if_pos]
          refine ⟨hx, hy, hz, ht, ?_⟩
          intro v hv
          rcases List.mem_or_eq_of_mem_set hv with h | h
          · exact hmem v h
          · rw [h]; exact hx
        · simp only [step, evaluate, store, hi, if_neg, if_false]
          exact ⟨hx, hy, hz, ht, hmem⟩
    | RCL i =>
        by_cases hi : i < NUM_REGISTERS
        · simp only [step, evaluate, recall_reg, hi, if_pos]
          refine ⟨?_, hx, hy, hz, hmem⟩
          rcases getD_mem_or_eq e.memory i 0 with h | h
          · exact hmem _ h
          · rw [h]; exact zero_inRange _
        · simp only [step, evaluate, recall_reg, hi, if_neg, if_false]
          exact ⟨hx, hy, hz, ht, hmem⟩
    | SET_WORD_SIZE n =>
        by_cases hn : 4 ≤ n ∧ n ≤ 64
        · simp only [step, evaluate, hn, if_pos, remask]
          refine ⟨mask_inRange _ _, mask_inRange _ _, mask_inRange _ _,
            mask_inRange _ _, ?_⟩
          intro v hv
          obtain ⟨u, _, rfl⟩ := List.mem_map.mp hv
          exact mask_inRange _ _
        · simp only [step, evaluate, hn, if_neg, if_false]
          exact ⟨hx, hy, hz, ht, hmem⟩
    | SET_MODE m =>
        simp only [step, evaluate, remask]
        refine ⟨mask_inRange _ _, mask_inRange _ _, mask_inRange _ _,
          mask_inRange _ _, ?_⟩
        intro v hv
        obtain ⟨u, _, rfl⟩ := List.mem_map.mp hv
        exact mask_inRange _ _
    | SWAP_XY => exact ⟨hy, hx, hz, ht, hmem⟩
    | ROLL_DOWN => exact ⟨hy, hz, ht, hx, hmem⟩
    | CLEAR_X => exact ⟨zero_inRange _, hy, hz, ht, hmem⟩
  · intro e n h4 h64
    have hn : 4 ≤ n ∧ n ≤ 64 := ⟨h4, h64⟩
    simp only [step, evaluate, if_pos hn, remask, mask]
    exact ⟨trivial, rfl⟩

/-- C4 (witness): changing the word size from 16 to 8 while X holds
0x1FF (= 511) re-masks X to 0xFF (= 255) immediately, and the invariant
is preserved. -/
theorem c4_remask_invariant_witness :
    EngineInv (Engine.mk (RegisterStack.mk 511 0 0 0) (List.replicate 16 0)
      (WordSizeContext.mk 16 Mode.UNSIGNED) false) ∧
    (step (Engine.mk (RegisterStack.mk 511 0 0 0) (List.replicate 16 0)
      (WordSizeContext.mk 16 Mode.UNSIGNED) false)
      (Op.SET_WORD_SIZE 8)).1.stack.x = 255 ∧
    EngineInv (step (Engine.mk (RegisterStack.mk 511 0 0 0) (List.replicate 16 0)
      (WordSizeContext.mk 16 Mode.UNSIGNED) false)
      (Op.SET_WORD_SIZE 8)).1 :=
  ⟨by decide,
   ((c4_remask_invariant.2 (Engine.mk (RegisterStack.mk 511 0 0 0)
      (List.replicate 16 0) (WordSizeContext.mk 16 Mode.UNSIGNED) false)
      8 (by decide) (by decide)).1).trans (by decide),
   c4_remask_invariant.1 (Engine.mk (RegisterStack.mk 511 0 0 0)
      (List.replicate 16 0) (WordSizeContext.mk 16 Mode.UNSIGNED) false)
      (Op.SET_WORD_SIZE 8) (by decide)⟩

/-- C5: for every base and every value representable at the active word
size, committing the formatted string round-trips to the value; the
formatted string always has exactly `pad_length` characters (the same
fixed width for every value at a given word size/base pair, so no
extraneous leading zeros beyond the padding), and `pad_length` is the
minimum digit count needed to show `word_size` bits in that base. -/
theorem c5_round_trip (ctx : WordSizeContext) (b : Base) (v : Int)
    (h4 : 4 ≤ ctx.word_size) (h64 : ctx.word_size ≤ 64)
    (hv0 : 0 ≤ v) (hvlt : v < 2 ^ ctx.word_size) :
    commit (format v ctx b) b ctx = .ok v ∧
    (format v ctx b).length = pad_length b ctx.word_size ∧
    ∀ w : Nat, 2 ^ ctx.word_size ≤ b.radix ^ w → pad_length b ctx.word_size ≤ w := by
  have hr : 1 < b.radix := one_lt_radix b
  have hr16 : b.radix ≤ 16 := radix_le_sixteen b
  have hmask : mask ctx v = v := Int.emod_eq_of_lt hv0 hvlt
  have hn_lt : v.toNat < 2 ^ ctx.word_size := by
    have h2 : (((2 : Nat) ^ ctx.word_size : Nat) : Int) = (2 : Int) ^ ctx.word_size := by
      push_cast
      rfl
    have hlt : (v.toNat : Int) < (((2 : Nat) ^ ctx.word_size : Nat) : Int) := by
      rw [Int.toNat_of_nonneg hv0, h2]
      exact hvlt
    exact_mod_cast hlt
  refine ⟨?_, ?_, ?_⟩
  · show commit (((Nat.digits b.radix (mask ctx v).toNat ++
        List.replicate (pad_length b ctx.word_size -
          (Nat.digits b.radix (mask ctx v).toNat).length) 0).map digitChar).reverse)
        b ctx = .ok v
    rw [hmask]
    set D : List Nat := Nat.digits b.radix v.toNat with hD
    set K : Nat := pad_length b ctx.word_size - D.length with hK
    have hall16 : ∀ d ∈ (D ++ List.replicate K 0).reverse, d < 16 := by
      intro d hd
      rw [List.mem_reverse] at hd
      rcases List.mem_append.mp hd with h | h
      · have : d < b.radix := Nat.digits_lt_base hr (hD ▸ h)
        omega
      · rw [List.eq_of_mem_replicate h]
        omega
    have hread : readDigits (((D ++ List.replicate K 0).map digitChar).reverse) =
        some ((D ++ List.replicate K 0).reverse) := by
      rw [← List.map_reverse]
      exact readDigits_map _ hall16
    have hallr : ((D ++ List.replicate K 0).reverse).all
        (fun d => decide (d < b.radix)) = true := by
      rw [List.all_eq_true]
      intro d hd
      rw [decide_eq_true_eq]
      rw [List.mem_reverse] at hd
      rcases List.mem_append.mp hd with h | h
      · exact Nat.digits_lt_base hr (hD ▸ h)
      · rw [List.eq_of_mem_replicate h]
        omega
    have hofd : Nat.ofDigits b.radix (D ++ List.replicate K 0) = v.toNat := by
      rw [Nat.ofDigits_append, ofDigits_replicate_zero, Nat.mul_zero, Nat.add_zero,
        hD, Nat.ofDigits_digits]
    simp only [commit, hread, hallr, if_true, List.reverse_reverse, hofd,
      Int.toNat_of_nonneg hv0, hmask]
  · show (((Nat.digits b.radix (mask ctx v).toNat ++
        List.replicate (pad_length b ctx.word_size -
          (Nat.digits b.radix (mask ctx v).toNat).length) 0).map digitChar).reverse).length =
      pad_length b ctx.word_size
    rw [hmask, List.length_reverse, List.length_map, List.length_append,
      List.length_replicate]
    have hle : (Nat.digits b.radix v.toNat).length ≤ pad_length b ctx.word_size := by
      unfold pad_length
      exact Nat.le_digits_len_le b.radix v.toNat (2 ^ ctx.word_size - 1) (by omega)
    omega
  · intro w hw
    have h16 : 16 ≤ 2 ^ ctx.word_size := by
      calc (16 : Nat) = 2 ^ 4 := by norm_num
        _ ≤ 2 ^ ctx.word_size := Nat.pow_le_pow_right (by norm_num) h4
    have hm0 : 2 ^ ctx.word_size - 1 ≠ 0 := by omega
    have hlt : 2 ^ ctx.word_size - 1 < b.radix ^ w := by omega
    unfold pad_length
    rw [Nat.digits_len b.radix _ hr hm0]
    have hlog := (Nat.lt_pow_iff_log_lt hr hm0).mp hlt
    omega

/-- C5 (witness): at word size 8 in hexadecimal, the value 11 formats to
a two-character string that commits back to 11. -/
theorem c5_round_trip_witness :
    commit (format 11 (WordSizeContext.mk 8 Mode.UNSIGNED) Base.HEX) Base.HEX
        (WordSizeContext.mk 8 Mode.UNSIGNED) = .ok 11 ∧
    (format 11 (WordSizeContext.mk 8 Mode.UNSIGNED) Base.HEX).length =
      pad_length Base.HEX 8 ∧
    ∀ w : Nat, 2 ^ 8 ≤ (Base.HEX).radix ^ w → pad_length Base.HEX 8 ≤ w :=
  c5_round_trip (WordSizeContext.mk 8 Mode.UNSIGNED) Base.HEX 11
    (by decide) (by decide) (by decide) (by decide)

/-- C10 (witness): a button named "sto" with an empty command map keeps
the no-op. -/
theorem c10_buttons_bound_witness :
    bind_command (fun _ => none) ⟨some "sto"⟩ = Cmd.noop :=
  c10_buttons_bound.2.1 (fun _ => none) ⟨some "sto"⟩ "sto" rfl rfl

end HP16C
